import Mathlib

/-!
Verification of the ExcelFlow client (`src/src/app/page.tsx`).

The component holds per-session React state (status, file, progress, logs,
drag flag, sheet headers, parsed records) and mutates it through a fixed set
of handlers (`handleFileSelect`, the `FileReader` callbacks, the progress
interval, `handleProcess`, `handleReset`, the drag handlers).  We embed that
state as an explicit record `FlowState`, each handler as a pure function on
it, and the event-driven behaviour as a step function over an `Event` type
whose guards mirror which handler the rendered UI makes invocable in each
status (`renderContent` / `renderFooter`).

Wall-clock timestamps (`toLocaleTimeString`) carry no information relevant
to any claim and are modelled as the constant empty string.  Toast
notifications are a transient UI side channel and are not part of the state.
-/

namespace ExcelFlow

/-- Workflow status, `type Status` in the source. -/
inductive Status where
  | idle
  | uploading
  | preview
  | processing
  | completed
  | error
deriving DecidableEq, Repr

/-- Severity of a log entry, the `type` field of `LogEntry` in the source. -/
inductive LogType where
  | info
  | error
deriving DecidableEq, Repr

/-- `type LogEntry = { timestamp, message, type }`. -/
structure LogEntry where
  timestamp : String
  message : String
  type : LogType
deriving DecidableEq, Repr

/-- A cell value: the source stores `any` values produced by the spreadsheet
library; per the spec data model they are loosely typed (string, number,
boolean, or empty). -/
inductive Cell where
  | str (s : String)
  | num (n : Int)
  | bool (b : Bool)
  | empty
deriving DecidableEq, Repr

/-- One keyed record as produced by `XLSX.utils.sheet_to_json`: an ordered
association of header name to cell value. -/
abbrev Record := List (String × Cell)

/-- The submitted file: name, declared media type (`File.type`), and its
byte buffer (modelled as the raw content string delivered to the decoder). -/
structure RawFile where
  name : String
  type : String
  content : String
deriving DecidableEq, Repr

/-- The downloadable artifact produced on completion. -/
structure Artifact where
  name : String
  content : String
deriving DecidableEq, Repr

/-- The component state: one field per `useState` hook, plus `uploadTimer`
(whether the progress `setInterval` of the upload effect is outstanding),
`processingTimer` (whether the `setTimeout` awaited by `handleProcess` is
outstanding) and `pendingRead` (an in-flight `FileReader.readAsArrayBuffer`
whose callbacks have not fired yet). -/
structure FlowState where
  status : Status
  file : Option RawFile
  progress : Nat
  logs : List LogEntry
  isDragging : Bool
  sheetHeaders : List String
  jsonData : List Record
  uploadTimer : Bool
  processingTimer : Bool
  pendingRead : Option RawFile
deriving DecidableEq, Repr

/-- The initial hook values: `useState('idle')`, `useState(null)`,
`useState(0)`, `useState([])`, `useState(false)`, `useState([])`,
`useState([])`; no timer and no read are outstanding. -/
def initialState : FlowState :=
  { status := .idle
    file := none
    progress := 0
    logs := []
    isDragging := false
    sheetHeaders := []
    jsonData := []
    uploadTimer := false
    processingTimer := false
    pendingRead := none }

/-- `ACCEPTED_FILE_TYPES` from the source. -/
def ACCEPTED_FILE_TYPES : List String :=
  ["application/vnd.openxmlformats-officedocument.spreadsheetml.sheet",
   "application/vnd.ms-excel",
   "text/csv"]

/-- JS `String.prototype.startsWith`, as used in `selectedFile.type.startsWith(type)`. -/
def strStartsWith (s pre : String) : Bool :=
  List.isPrefixOf pre.data s.data

/-- JS `String.prototype.endsWith`, as used in `selectedFile.name.endsWith('.xlsx')`. -/
def strEndsWith (s post : String) : Bool :=
  List.isSuffixOf post.data s.data

/-- A log entry as built by `addLog`; the wall-clock timestamp is modelled
as the constant empty string. -/
def mkLog (message : String) (t : LogType) : LogEntry :=
  { timestamp := "", message := message, type := t }

/-- `addLog`: prepend a timestamped entry (`setLogs(prev => [entry, ...prev])`). -/
def addLog (message : String) (t : LogType) (s : FlowState) : FlowState :=
  { s with logs := mkLog message t :: s.logs }

/-- The acceptance predicate of `handleFileSelect`:
`ACCEPTED_FILE_TYPES.some(type => selectedFile.type.startsWith(type)) ||
 name.endsWith('.xlsx') || name.endsWith('.xls') || name.endsWith('.csv')`. -/
def isAccepted (f : RawFile) : Bool :=
  ACCEPTED_FILE_TYPES.any (fun t => strStartsWith f.type t) ||
  strEndsWith f.name (".xlsx") ||
  strEndsWith f.name (".xls") ||
  strEndsWith f.name (".csv")

def invalidMsg (f : RawFile) : String :=
  "Tipo de archivo inválido: " ++ f.name ++ ". Por favor, sube un archivo .xlsx, .xls o .csv."

def selectedMsg (f : RawFile) : String :=
  "Archivo seleccionado: \"" ++ f.name ++ "\""

def corruptMsg : String :=
  "No se pudo analizar el archivo. Podría estar corrupto o en un formato no compatible."

def emptyFileMsg : String :=
  "El archivo seleccionado está vacío o no tiene datos."

def parsedOkMsg : String :=
  "Datos del archivo analizados con éxito. Mostrando todos los datos de la hoja."

def readErrMsg : String :=
  "Ocurrió un error al leer el archivo."

def uploadStartMsg : String :=
  "Iniciando la carga del archivo..."

def uploadedMsg (name : String) : String :=
  "\"" ++ name ++ "\" subido con éxito. Listo para previsualizar."

def processingMsg : String :=
  "Procesamiento de datos iniciado..."

def preparedMsg : String :=
  "Los datos ya están estructurados. Preparando para la descarga..."

def generatedMsg : String :=
  "Se generó y descargó processed_data.json con éxito."

def completedMsg : String :=
  "Procesamiento de datos completado con éxito."

/-- `handleFileSelect` (source lines 415-490).  `none` returns immediately.
An unaccepted file logs the failure and sets status `error`.  An accepted
file is logged, stored, the table state is cleared, a `FileReader` is
started on it (`pendingRead`), and status becomes `uploading`. -/
def handleFileSelect (selectedFile : Option RawFile) (s : FlowState) : FlowState :=
  match selectedFile with
  | none => s
  | some f =>
    if isAccepted f then
      { addLog (selectedMsg f) .info s with
          file := some f
          progress := 0
          sheetHeaders := []
          jsonData := []
          pendingRead := some f
          status := .uploading }
    else
      addLog (invalidMsg f) .error { s with status := .error }

/-- `reader.onload` (source lines 442-476), parameterised by the spreadsheet
decoder (`XLSX.read` + `XLSX.utils.sheet_to_json` on the first sheet), which
is a third-party library and may fail on bytes that are not a valid
spreadsheet/CSV encoding.  `data = none` models a null `e.target.result`
(the `throw` it triggers is caught by the same `catch`).  A decoder failure
is caught and reported as the corrupt-file failure; a decode with zero
records, or whose first record has zero keys, is reported as the empty-file
failure; otherwise headers are taken from the first record's keys and the
records are stored.  The function is total: no exception crosses it. -/
def readerOnload (decode : String → Except String (List Record))
    (data : Option String) (s : FlowState) : FlowState :=
  match data with
  | none => addLog corruptMsg .error { s with status := .error }
  | some bytes =>
    match decode bytes with
    | .error _ => addLog corruptMsg .error { s with status := .error }
    | .ok parsedData =>
      match parsedData with
      | [] => addLog emptyFileMsg .error { s with status := .error }
      | r :: rest =>
        if r.length = 0 then
          addLog emptyFileMsg .error { s with status := .error }
        else
          addLog parsedOkMsg .info
            { s with sheetHeaders := r.map Prod.fst, jsonData := r :: rest }

/-- `reader.onerror` (source lines 477-486). -/
def readerOnerror (s : FlowState) : FlowState :=
  addLog readErrMsg .error { s with status := .error }

/-- The `setInterval` callback of the upload effect (source lines 495-505):
at `prev >= 100` it clears the interval, moves to `preview`, logs, and
returns 100; otherwise it returns `prev + 10`. -/
def tickProgress (s : FlowState) : FlowState :=
  if s.progress ≥ 100 then
    addLog (uploadedMsg ((s.file.map RawFile.name).getD "")) .info
      { s with uploadTimer := false, status := .preview, progress := 100 }
  else
    { s with progress := s.progress + 10 }

/-- `handleProcess` (source lines 532-561) up to the `await`: with no data
it only shows a toast and returns; otherwise it sets `processing`, logs,
and leaves the 1500 ms `setTimeout` outstanding. -/
def handleProcess (s : FlowState) : FlowState :=
  if s.jsonData.length = 0 then s
  else
    addLog processingMsg .info { s with status := .processing, processingTimer := true }

/-- JSON string escaping of one character, as performed by `JSON.stringify`
on the characters that can occur in our cells and headers. -/
def escChar (c : Char) : String :=
  if c = '"' then "\\\""
  else if c = '\\' then "\\\\"
  else if c = '\n' then "\\n"
  else if c = '\t' then "\\t"
  else if c = '\r' then "\\r"
  else String.singleton c

def escString (s : String) : String :=
  String.join (s.data.map escChar)

def quoteStr (s : String) : String :=
  "\"" ++ escString s ++ "\""

/-- `JSON.stringify` of one cell value. -/
def cellJson : Cell → String
  | .str s => quoteStr s
  | .num n => toString n
  | .bool b => if b then "true" else "false"
  | .empty => "null"

/-- One `"key": value` member line at the indentation `JSON.stringify(x, null, 2)`
uses for members of an object that is an array element. -/
def pairJson (p : String × Cell) : String :=
  "    " ++ quoteStr p.1 ++ ": " ++ cellJson p.2

/-- One record as `JSON.stringify(x, null, 2)` prints an object element of a
top-level array. -/
def recordJson (r : Record) : String :=
  match r with
  | [] => "  \x7b\x7d"
  | _ => "  \x7b\n" ++ String.intercalate (",\n") (r.map pairJson) ++ "\n  \x7d"

/-- `JSON.stringify(rows, null, 2)` for an array of keyed records. -/
def jsonStringifyRecords (rows : List Record) : String :=
  match rows with
  | [] => "[]"
  | _ => "[\n" ++ String.intercalate (",\n") (rows.map recordJson) ++ "\n]"

/-- `simulateBackendProcessing` (source lines 510-530) as the artifact it
produces: `JSON.stringify(dataToProcess, null, 2)` offered for download as
`processed_data.json`. -/
def simulateBackendProcessing (rows : List Record) : Artifact :=
  { name := "processed_data.json", content := jsonStringifyRecords rows }

/-- The continuation of `handleProcess` after the `setTimeout` resolves:
`simulateBackendProcessing` logs its two info entries (its serialization of
plain records is total, so it returns `true`), then status becomes
`completed` and the completion entry is logged. -/
def processingFinished (s : FlowState) : FlowState :=
  addLog completedMsg .info
    { addLog generatedMsg .info (addLog preparedMsg .info s) with status := .completed }

/-- `handleReset` (source lines 563-570): exactly the six `set*` calls in
the source; `isDragging`, any pending timeout and any in-flight read are
not touched. -/
def handleReset (s : FlowState) : FlowState :=
  { s with status := .idle
           file := none
           progress := 0
           logs := []
           sheetHeaders := []
           jsonData := [] }

/-- `handleDragEnter` (state part: `setIsDragging(true)`). -/
def handleDragEnter (s : FlowState) : FlowState :=
  { s with isDragging := true }

/-- `handleDragLeave` (state part: `setIsDragging(false)`). -/
def handleDragLeave (s : FlowState) : FlowState :=
  { s with isDragging := false }

/-- The `disabled` condition of the confirm button in `renderFooter`
(source line 674): `jsonData.length === 0`. -/
def confirmDisabled (s : FlowState) : Bool :=
  s.jsonData.length == 0

/-- Split a character list on a separator character. -/
def splitCharList (sep : Char) : List Char → List (List Char)
  | [] => [[]]
  | c :: cs =>
    let r := splitCharList sep cs
    if c = sep then [] :: r
    else
      match r with
      | g :: gs => (c :: g) :: gs
      | [] => [[c]]

/-- Modelled from the spec: the spreadsheet decoder (`XLSX.read` plus
`XLSX.utils.sheet_to_json` on the first sheet) is a third-party library and
is not part of this repository.  Per the spec (§4.1), for a CSV the engine
produces keyed records whose headers come from the first record's keys; the
round-trip property (§8) states that the data row `["1","2"]` under header
`["a","b"]` yields one record mapping `a` to `"1"` and `b` to `"2"`, and the
empty-file scenario (§8) states that a 0-byte buffer decodes to zero data
rows.  The first line is the header row, each further non-empty line is one
record zipping the headers with the line's cells as strings. -/
def csvDecode (input : String) : Except String (List Record) :=
  let lines := (splitCharList ('\n') input.data).filter (fun l => l ≠ [])
  match lines with
  | [] => Except.ok []
  | header :: rows =>
    let hs := (splitCharList (',') header).map String.mk
    Except.ok (rows.map (fun row =>
      List.zip hs (((splitCharList (',') row).map String.mk).map Cell.str)))

/-- The decoder the machine runs: the byte buffer is its content string,
decoded by the spec-modelled `csvDecode`. -/
def specDecode : String → Except String (List Record) :=
  csvDecode

/-- The upload-progress `useEffect` (source lines 492-508) as a
normalisation applied after every event: the effect keeps one interval
outstanding exactly while `status === 'uploading' && file`, logging the
start message when it begins, and its cleanup (`clearInterval`) cancels the
interval whenever the condition stops holding. -/
def applyEffect (s : FlowState) : FlowState :=
  if s.status = .uploading ∧ s.file.isSome = true then
    if s.uploadTimer then s
    else addLog uploadStartMsg .info { s with uploadTimer := true }
  else
    { s with uploadTimer := false }

/-- The events that can reach the component: a file submission (picker or
drop), the `FileReader` callbacks, one fire of the progress interval, the
confirm button, the elapse of the processing delay, the reset button, and
the drag-hover handlers. -/
inductive Event where
  | fileSelect (f : Option RawFile)
  | readComplete
  | readFail
  | tick
  | confirm
  | delayElapsed
  | reset
  | dragEnter
  | dragLeave
deriving DecidableEq, Repr

/-- One event of the component.  The guards are the rendering conditions of
the source: the drop zone and file input exist only in the `idle` and
`error` branches of `renderContent` (lines 585-617), the confirm button only
in the `preview` branch of `renderFooter` (lines 672-675), the reset button
only in its `completed` and `error` branches (lines 683-698); the
`FileReader` callbacks fire only for an in-flight read, and each timer
callback only while its timer is outstanding.  After the handler, the upload
effect is re-synchronised. -/
def step (e : Event) (s : FlowState) : FlowState :=
  match e with
  | .fileSelect f =>
    if s.status == .idle || s.status == .error then
      applyEffect (handleFileSelect f s)
    else s
  | .readComplete =>
    match s.pendingRead with
    | some f => applyEffect (readerOnload specDecode (some f.content) { s with pendingRead := none })
    | none => s
  | .readFail =>
    match s.pendingRead with
    | some _ => applyEffect (readerOnerror { s with pendingRead := none })
    | none => s
  | .tick =>
    if s.uploadTimer then applyEffect (tickProgress s) else s
  | .confirm =>
    if s.status == .preview then applyEffect (handleProcess s) else s
  | .delayElapsed =>
    if s.processingTimer then
      applyEffect (processingFinished { s with processingTimer := false })
    else s
  | .reset =>
    if s.status == .completed || s.status == .error then
      applyEffect (handleReset s)
    else s
  | .dragEnter =>
    if s.status == .idle || s.status == .error then
      applyEffect (handleDragEnter s)
    else s
  | .dragLeave =>
    if s.status == .idle || s.status == .error then
      applyEffect (handleDragLeave s)
    else s

/-- The states the component can be in: the initial render, closed under
events. -/
inductive Reachable : FlowState → Prop where
  | init : Reachable initialState
  | next : ∀ (e : Event) {s : FlowState}, Reachable s → Reachable (step e s)

/-- A JSON value, for reading the output artifact back (the `JSON.parse`
side of the round-trip property). -/
inductive Json where
  | str (s : String)
  | num (n : Int)
  | bool (b : Bool)
  | null
  | arr (xs : List Json)
  | obj (fields : List (String × Json))
deriving Repr

/-- Drop leading JSON whitespace. -/
def skipWs : List Char → List Char
  | [] => []
  | c :: cs => if c = ' ' ∨ c = '\n' ∨ c = '\t' ∨ c = '\r' then skipWs cs else c :: cs

/-- Parse the body of a JSON string after the opening quote, returning the
string and the characters after the closing quote. -/
def parseStringBody : List Char → Option (String × List Char)
  | [] => none
  | '"' :: cs => some ("", cs)
  | '\\' :: c :: cs =>
    match parseStringBody cs with
    | some (s, rest) =>
      let d := if c = 'n' then '\n' else if c = 't' then '\t' else if c = 'r' then '\r' else c
      some (String.singleton d ++ s, rest)
    | none => none
  | c :: cs =>
    match parseStringBody cs with
    | some (s, rest) => some (String.singleton c ++ s, rest)
    | none => none

/-- Take the maximal digit run. -/
def takeDigits : List Char → List Char × List Char
  | [] => ([], [])
  | c :: cs =>
    if c.isDigit then
      let (ds, rest) := takeDigits cs
      (c :: ds, rest)
    else ([], c :: cs)

def digitsToNat (ds : List Char) : Nat :=
  ds.foldl (fun acc c => acc * 10 + (c.toNat - 48)) 0

mutual

/-- Fuel-bounded recursive-descent parse of one JSON value. -/
def parseValue : Nat → List Char → Option (Json × List Char)
  | 0, _ => none
  | fuel + 1, cs =>
    match skipWs cs with
    | [] => none
    | '"' :: rest =>
      match parseStringBody rest with
      | some (s, r) => some (.str s, r)
      | none => none
    | '[' :: rest =>
      match skipWs rest with
      | ']' :: r => some (.arr [], r)
      | r =>
        match parseItems fuel r with
        | some (xs, r2) => some (.arr xs, r2)
        | none => none
    | '\x7b' :: rest =>
      match skipWs rest with
      | '\x7d' :: r => some (.obj [], r)
      | r =>
        match parseFields fuel r with
        | some (fs, r2) => some (.obj fs, r2)
        | none => none
    | 't' :: 'r' :: 'u' :: 'e' :: rest => some (.bool true, rest)
    | 'f' :: 'a' :: 'l' :: 's' :: 'e' :: rest => some (.bool false, rest)
    | 'n' :: 'u' :: 'l' :: 'l' :: rest => some (.null, rest)
    | '-' :: rest =>
      match takeDigits rest with
      | ([], _) => none
      | (ds, r) => some (.num (-(digitsToNat ds : Int)), r)
    | c :: rest =>
      if c.isDigit then
        match takeDigits (c :: rest) with
        | (ds, r) => some (.num ((digitsToNat ds : Nat) : Int), r)
      else none

/-- Parse the comma-separated items of a non-empty array up to `]`. -/
def parseItems : Nat → List Char → Option (List Json × List Char)
  | 0, _ => none
  | fuel + 1, cs =>
    match parseValue fuel cs with
    | none => none
    | some (v, r) =>
      match skipWs r with
      | ',' :: r2 =>
        match parseItems fuel r2 with
        | some (xs, r3) => some (v :: xs, r3)
        | none => none
      | ']' :: r2 => some ([v], r2)
      | _ => none

/-- Parse the members of a non-empty object up to the closing brace. -/
def parseFields : Nat → List Char → Option (List (String × Json) × List Char)
  | 0, _ => none
  | fuel + 1, cs =>
    match skipWs cs with
    | '"' :: rest =>
      match parseStringBody rest with
      | none => none
      | some (k, r) =>
        match skipWs r with
        | ':' :: r2 =>
          match parseValue fuel r2 with
          | none => none
          | some (v, r3) =>
            match skipWs r3 with
            | ',' :: r4 =>
              match parseFields fuel r4 with
              | some (fs, r5) => some ((k, v) :: fs, r5)
              | none => none
            | '\x7d' :: r4 => some ([(k, v)], r4)
            | _ => none
        | _ => none
    | _ => none

end

/-- `JSON.parse`: parse a whole document, requiring only whitespace after
the value. -/
def jsonParse (s : String) : Option Json :=
  match parseValue (2 * s.data.length + 16) s.data with
  | some (v, rest) => if skipWs rest = [] then some v else none
  | none => none

@[simp] theorem addLog_status (m : String) (t : LogType) (s : FlowState) :
    (addLog m t s).status = s.status := rfl

@[simp] theorem addLog_file (m : String) (t : LogType) (s : FlowState) :
    (addLog m t s).file = s.file := rfl

@[simp] theorem addLog_progress (m : String) (t : LogType) (s : FlowState) :
    (addLog m t s).progress = s.progress := rfl

@[simp] theorem addLog_isDragging (m : String) (t : LogType) (s : FlowState) :
    (addLog m t s).isDragging = s.isDragging := rfl

@[simp] theorem addLog_sheetHeaders (m : String) (t : LogType) (s : FlowState) :
    (addLog m t s).sheetHeaders = s.sheetHeaders := rfl

@[simp] theorem addLog_jsonData (m : String) (t : LogType) (s : FlowState) :
    (addLog m t s).jsonData = s.jsonData := rfl

@[simp] theorem addLog_uploadTimer (m : String) (t : LogType) (s : FlowState) :
    (addLog m t s).uploadTimer = s.uploadTimer := rfl

@[simp] theorem addLog_processingTimer (m : String) (t : LogType) (s : FlowState) :
    (addLog m t s).processingTimer = s.processingTimer := rfl

@[simp] theorem addLog_pendingRead (m : String) (t : LogType) (s : FlowState) :
    (addLog m t s).pendingRead = s.pendingRead := rfl

@[simp] theorem addLog_logs (m : String) (t : LogType) (s : FlowState) :
    (addLog m t s).logs = mkLog m t :: s.logs := rfl

@[simp] theorem applyEffect_status (s : FlowState) : (applyEffect s).status = s.status := by
  simp only [applyEffect]
  split
  · split <;> simp
  · rfl

@[simp] theorem applyEffect_file (s : FlowState) : (applyEffect s).file = s.file := by
  simp only [applyEffect]
  split
  · split <;> simp
  · rfl

@[simp] theorem applyEffect_progress (s : FlowState) : (applyEffect s).progress = s.progress := by
  simp only [applyEffect]
  split
  · split <;> simp
  · rfl

@[simp] theorem applyEffect_isDragging (s : FlowState) :
    (applyEffect s).isDragging = s.isDragging := by
  simp only [applyEffect]
  split
  · split <;> simp
  · rfl

@[simp] theorem applyEffect_sheetHeaders (s : FlowState) :
    (applyEffect s).sheetHeaders = s.sheetHeaders := by
  simp only [applyEffect]
  split
  · split <;> simp
  · rfl

@[simp] theorem applyEffect_jsonData (s : FlowState) :
    (applyEffect s).jsonData = s.jsonData := by
  simp only [applyEffect]
  split
  · split <;> simp
  · rfl

@[simp] theorem applyEffect_processingTimer (s : FlowState) :
    (applyEffect s).processingTimer = s.processingTimer := by
  simp only [applyEffect]
  split
  · split <;> simp
  · rfl

@[simp] theorem applyEffect_pendingRead (s : FlowState) :
    (applyEffect s).pendingRead = s.pendingRead := by
  simp only [applyEffect]
  split
  · split <;> simp
  · rfl

theorem applyEffect_uploadTimer (s : FlowState) :
    (applyEffect s).uploadTimer = true ↔ s.status = .uploading ∧ s.file.isSome = true := by
  simp only [applyEffect]
  split
  · rename_i h
    split
    · rename_i h2
      simp [h, h2]
    · simp [h]
  · rename_i h
    simp [h]

/-- The inductive invariant of the component: progress is a multiple of ten
bounded by 100; the upload interval is outstanding exactly in `uploading`
(where a file is present); the processing timeout is outstanding only in
`processing`, with no read in flight; while a read is in flight the table is
still the cleared one. -/
def Inv (s : FlowState) : Prop :=
  s.progress ≤ 100 ∧
  s.progress % 10 = 0 ∧
  (s.status = .uploading → s.file.isSome = true) ∧
  (s.processingTimer = true → s.status = .processing ∧ s.pendingRead = none) ∧
  (s.pendingRead.isSome = true → s.jsonData = []) ∧
  (s.uploadTimer = true ↔ s.status = .uploading)

/-- The part of the invariant established by each handler before the upload
effect is re-synchronised. -/
def PreInv (s : FlowState) : Prop :=
  s.progress ≤ 100 ∧
  s.progress % 10 = 0 ∧
  (s.status = .uploading → s.file.isSome = true) ∧
  (s.processingTimer = true → s.status = .processing ∧ s.pendingRead = none) ∧
  (s.pendingRead.isSome = true → s.jsonData = [])

theorem inv_applyEffect {s : FlowState} (h : PreInv s) : Inv (applyEffect s) := by
  obtain ⟨h1, h2, h3, h4, h5⟩ := h
  refine ⟨by simp [h1], by simp [h2], by simpa using h3, ?_, by simpa using h5, ?_⟩
  · intro ht
    rw [applyEffect_processingTimer] at ht
    simp [h4 ht]
  · rw [applyEffect_uploadTimer, applyEffect_status]
    constructor
    · exact fun hu => hu.1
    · exact fun hu => ⟨hu, h3 hu⟩

theorem inv_init : Inv initialState := by
  refine ⟨by simp [initialState], by simp [initialState], ?_, ?_, ?_, ?_⟩ <;>
    simp [initialState]

theorem inv_step {s : FlowState} (e : Event) (h : Inv s) : Inv (step e s) := by
  obtain ⟨h1, h2, h3, h4, h5, h6⟩ := h
  have hinv : Inv s := ⟨h1, h2, h3, h4, h5, h6⟩
  have hpre : PreInv s := ⟨h1, h2, h3, h4, h5⟩
  cases e with
  | fileSelect f =>
    simp only [step]
    split
    · rename_i hg
      have hst : s.status = Status.idle ∨ s.status = Status.error := by
        simpa using hg
      have hptf : s.processingTimer = false := by
        cases hp : s.processingTimer with
        | false => rfl
        | true =>
          have hx := (h4 hp).1
          rcases hst with hh | hh <;> rw [hh] at hx <;> cases hx
      apply inv_applyEffect
      match f with
      | none => exact hpre
      | some f =>
        simp only [handleFileSelect]
        split
        · exact ⟨by simp, by simp, by simp, by simp [hptf], by simp⟩
        · exact ⟨by simpa using h1, by simpa using h2, by simp, by simp [hptf],
            by simpa using h5⟩
    · exact hinv
  | readComplete =>
    simp only [step]
    cases hpr : s.pendingRead with
    | none => exact hinv
    | some f =>
      have hptf : s.processingTimer = false := by
        cases hp : s.processingTimer with
        | false => rfl
        | true => rw [(h4 hp).2] at hpr; cases hpr
      apply inv_applyEffect
      simp only [readerOnload]
      split
      · exact ⟨by simpa using h1, by simpa using h2, by simp, by simp [hptf], by simp⟩
      · split
        · exact ⟨by simpa using h1, by simpa using h2, by simp, by simp [hptf], by simp⟩
        · split
          · exact ⟨by simpa using h1, by simpa using h2, by simp, by simp [hptf], by simp⟩
          · exact ⟨by simpa using h1, by simpa using h2, by simpa using h3,
              by simp [hptf], by simp⟩
  | readFail =>
    simp only [step]
    cases hpr : s.pendingRead with
    | none => exact hinv
    | some f =>
      have hptf : s.processingTimer = false := by
        cases hp : s.processingTimer with
        | false => rfl
        | true => rw [(h4 hp).2] at hpr; cases hpr
      apply inv_applyEffect
      simp only [readerOnerror]
      exact ⟨by simpa using h1, by simpa using h2, by simp, by simp [hptf], by simp⟩
  | tick =>
    simp only [step]
    split
    · rename_i hup
      have hst : s.status = Status.uploading := h6.mp hup
      have hptf : s.processingTimer = false := by
        cases hp : s.processingTimer with
        | false => rfl
        | true => have hx := (h4 hp).1; rw [hst] at hx; cases hx
      apply inv_applyEffect
      simp only [tickProgress]
      split
      · exact ⟨by simp, by simp, by simp, by simp [hptf], by simpa using h5⟩
      · rename_i hlt
        refine ⟨?_, ?_, by simpa using h3, by simp [hptf], by simpa using h5⟩
        · simp only [FlowState.progress]
          simp
          omega
        · simp
          omega
    · exact hinv
  | confirm =>
    simp only [step]
    split
    · rename_i hg
      have hst : s.status = Status.preview := by simpa using hg
      have hptf : s.processingTimer = false := by
        cases hp : s.processingTimer with
        | false => rfl
        | true => have hx := (h4 hp).1; rw [hst] at hx; cases hx
      apply inv_applyEffect
      simp only [handleProcess]
      split
      · exact hpre
      · rename_i hne
        have hprn : s.pendingRead = none := by
          cases hq : s.pendingRead with
          | none => rfl
          | some g =>
            have hx := h5 (by rw [hq]; rfl)
            rw [hx] at hne
            simp at hne
        refine ⟨by simpa using h1, by simpa using h2, by simp, ?_, by simp [hprn]⟩
        intro _
        exact ⟨by simp, by simp [hprn]⟩
    · exact hinv
  | delayElapsed =>
    simp only [step]
    split
    · rename_i hp
      have hproc := h4 hp
      apply inv_applyEffect
      simp only [processingFinished]
      exact ⟨by simpa using h1, by simpa using h2, by simp, by simp, by simpa using h5⟩
    · exact hinv
  | reset =>
    simp only [step]
    split
    · rename_i hg
      have hst : s.status = Status.completed ∨ s.status = Status.error := by
        simpa using hg
      have hptf : s.processingTimer = false := by
        cases hp : s.processingTimer with
        | false => rfl
        | true =>
          have hx := (h4 hp).1
          rcases hst with hh | hh <;> rw [hh] at hx <;> cases hx
      apply inv_applyEffect
      simp only [handleReset]
      exact ⟨by simp, by simp, by simp, by simp [hptf], by simp⟩
    · exact hinv
  | dragEnter =>
    simp only [step]
    split
    · apply inv_applyEffect
      simp only [handleDragEnter]
      exact ⟨by simpa using h1, by simpa using h2, by simpa using h3, by simpa using h4,
        by simpa using h5⟩
    · exact hinv
  | dragLeave =>
    simp only [step]
    split
    · apply inv_applyEffect
      simp only [handleDragLeave]
      exact ⟨by simpa using h1, by simpa using h2, by simpa using h3, by simpa using h4,
        by simpa using h5⟩
    · exact hinv

/-- Every reachable state satisfies the inductive invariant. -/
theorem reachable_inv {s : FlowState} (h : Reachable s) : Inv s := by
  induction h with
  | init => exact inv_init
  | next e _ ih => exact inv_step e ih

/-- A well-formed two-column CSV file (round-trip scenario of the spec). -/
def csvFile : RawFile :=
  { name := "data.csv", type := "text/csv", content := "a,b\n1,2" }

/-- A file that is rejected by validation: wrong extension, wrong media type. -/
def badFile : RawFile :=
  { name := "notes.txt", type := "text/plain", content := "" }

/-- The 0-byte file of the empty-file scenario of the spec. -/
def emptyXlsx : RawFile :=
  { name := "empty.xlsx", type := "", content := "" }

/-- A macro-enabled workbook: its media type is not a member of
`ACCEPTED_FILE_TYPES` but starts with one of its entries, and its extension
is none of `.xlsx`/`.xls`/`.csv`. -/
def xlsmFile : RawFile :=
  { name := "macro.xlsm"
    type := "application/vnd.ms-excel.sheet.macroEnabled.12"
    content := "" }

/-- C1: for every byte buffer on which the spreadsheet decoder fails, the
`onload` handler catches the failure and reports the structured corrupt-file
result: it appends exactly one error-severity log entry and sets the status
to `error`, leaving every other field unchanged.  The handler is a total
function of the decode result, so no exception crosses the engine boundary. -/
theorem parse_corrupt_reports_error
    (decode : String → Except String (List Record)) (bytes : String)
    (s : FlowState) (msg : String) (h : decode bytes = Except.error msg) :
    readerOnload decode (some bytes) s
      = { s with status := Status.error,
                 logs := mkLog corruptMsg LogType.error :: s.logs } := by
  simp only [readerOnload, h]
  rfl

/-- Witness for C1 at a concrete decoder, buffer and state. -/
theorem parse_corrupt_reports_error_witness :
    readerOnload (fun _ => Except.error ("bad")) (some ("junk")) initialState
      = { initialState with status := Status.error,
                            logs := [mkLog corruptMsg LogType.error] } :=
  parse_corrupt_reports_error (fun _ => Except.error ("bad")) ("junk") initialState ("bad") rfl

/-- C2 counterexample: `macro.xlsm` with media type
`application/vnd.ms-excel.sheet.macroEnabled.12` has an extension that is
none of `.xlsx`/`.xls`/`.csv` and a declared media type that is not in the
allow-list, yet `handleFileSelect` accepts it (the source tests
`type.startsWith(t)`, not membership): the state moves to `uploading` and a
read of its bytes is started, so parse will be invoked. -/
theorem invalid_format_claim_cex :
    xlsmFile.type ∉ ACCEPTED_FILE_TYPES ∧
    strEndsWith xlsmFile.name (".xlsx") = false ∧
    strEndsWith xlsmFile.name (".xls") = false ∧
    strEndsWith xlsmFile.name (".csv") = false ∧
    (handleFileSelect (some xlsmFile) initialState).status = Status.uploading ∧
    (handleFileSelect (some xlsmFile) initialState).pendingRead = some xlsmFile := by
  refine ⟨?_, ?_, ?_, ?_, ?_, ?_⟩ <;> decide

/-- C2 amended: for every file whose declared media type does not start
with any entry of the allow-list and whose name ends with none of
`.xlsx`/`.xls`/`.csv`, `handleFileSelect` rejects it: it appends the
invalid-format error log entry and sets the status to `error`, changing
nothing else — in particular no read is started, so parse is never invoked.
The handler is a total function, so rejection never throws. -/
theorem invalid_format_rejected (s : FlowState) (f : RawFile)
    (hty : ACCEPTED_FILE_TYPES.any (fun t => strStartsWith f.type t) = false)
    (h1 : strEndsWith f.name (".xlsx") = false)
    (h2 : strEndsWith f.name (".xls") = false)
    (h3 : strEndsWith f.name (".csv") = false) :
    handleFileSelect (some f) s
      = { s with status := Status.error,
                 logs := mkLog (invalidMsg f) LogType.error :: s.logs } := by
  have hacc : isAccepted f = false := by
    simp [isAccepted, hty, h1, h2, h3]
  simp only [handleFileSelect, hacc]
  rfl

/-- Witness for C2 amended at a concrete file and state. -/
theorem invalid_format_rejected_witness :
    handleFileSelect (some badFile) initialState
      = { initialState with status := Status.error,
                            logs := [mkLog (invalidMsg badFile) LogType.error] } :=
  invalid_format_rejected initialState badFile (by decide) (by decide) (by decide) (by decide)

/-- C3: a decode with zero data rows (no records, or a first record with
zero keys) is reported as the empty-file failure: one error log entry and
status `error`.  Moreover, in the concrete scenario, the 0-byte
`empty.xlsx` passes validation by extension, and after its read completes
the machine is in `error` with exactly one error-severity log entry. -/
theorem parse_empty_reports_error :
    (∀ (decode : String → Except String (List Record)) (bytes : String)
        (s : FlowState) (records : List Record),
        decode bytes = Except.ok records →
        (records = [] ∨ ∃ r rest, records = r :: rest ∧ r = ([] : Record)) →
        readerOnload decode (some bytes) s
          = { s with status := Status.error,
                     logs := mkLog emptyFileMsg LogType.error :: s.logs }) ∧
    isAccepted emptyXlsx = true ∧
    (step Event.readComplete (step (Event.fileSelect (some emptyXlsx)) initialState)).status
      = Status.error ∧
    ((step Event.readComplete
        (step (Event.fileSelect (some emptyXlsx)) initialState)).logs.filter
        (fun l => l.type == LogType.error)).length = 1 := by
  refine ⟨?_, by decide, by decide, by decide⟩
  intro decode bytes s records hdec hemp
  rcases hemp with rfl | ⟨r, rest, rfl, rfl⟩
  · simp only [readerOnload, hdec]
    rfl
  · simp only [readerOnload, hdec]
    rfl

/-- Witness for C3's universally quantified part, at the machine's decoder
on the empty buffer. -/
theorem parse_empty_reports_error_witness :
    readerOnload specDecode (some ("")) initialState
      = { initialState with status := Status.error,
                            logs := [mkLog emptyFileMsg LogType.error] } :=
  parse_empty_reports_error.1 specDecode ("") initialState [] rfl (Or.inl rfl)

/-- C6 counterexample: from the reachable error state obtained by submitting
an invalid file and then dragging over the drop zone, reset does not yield
the initial idle state — `handleReset` does not touch `isDragging`, which
stays `true` while its initial value is `false`. -/
theorem reset_restores_all_cex :
    step Event.reset
        (step Event.dragEnter (step (Event.fileSelect (some badFile)) initialState))
      ≠ initialState ∧
    (step Event.reset
        (step Event.dragEnter (step (Event.fileSelect (some badFile)) initialState))).isDragging
      = true ∧
    initialState.isDragging = false := by
  refine ⟨?_, ?_, ?_⟩ <;> decide

/-- C6 amended: calling reset from any state sets the status to `idle`,
clears the file, the table headers and rows, the progress and the log,
leaves the drag-hover flag (and only such auxiliary fields outside the six
`set*` calls of `handleReset`) unchanged, and is idempotent. -/
theorem reset_idempotent_frame (s : FlowState) :
    (handleReset s).status = Status.idle ∧
    (handleReset s).file = none ∧
    (handleReset s).progress = 0 ∧
    (handleReset s).logs = [] ∧
    (handleReset s).sheetHeaders = [] ∧
    (handleReset s).jsonData = [] ∧
    (handleReset s).isDragging = s.isDragging ∧
    handleReset (handleReset s) = handleReset s :=
  ⟨rfl, rfl, rfl, rfl, rfl, rfl, rfl, rfl⟩

/-- C7: the two-column CSV with header row a,b and data row 1,2 parses to
headers `["a","b"]` and one record mapping a to "1" and b to "2"; the
completed-state artifact is named `processed_data.json`, and parsing its
pretty-printed JSON content back yields exactly those header/value pairs. -/
theorem csv_roundtrip :
    (step Event.readComplete (step (Event.fileSelect (some csvFile)) initialState)).sheetHeaders
      = ["a", "b"] ∧
    (step Event.readComplete (step (Event.fileSelect (some csvFile)) initialState)).jsonData
      = [[("a", Cell.str ("1")), ("b", Cell.str ("2"))]] ∧
    (simulateBackendProcessing
        (step Event.readComplete
          (step (Event.fileSelect (some csvFile)) initialState)).jsonData).name
      = "processed_data.json" ∧
    jsonParse (simulateBackendProcessing
        (step Event.readComplete
          (step (Event.fileSelect (some csvFile)) initialState)).jsonData).content
      = some (Json.arr [Json.obj [("a", Json.str ("1")), ("b", Json.str ("2"))]]) := by
  refine ⟨by decide, by decide, by decide, by rfl⟩

/-- C8: in the preview state with an empty parse result, the confirm button
is disabled, and invoking `handleProcess` anyway returns the state
unchanged: no transition to `processing` and no processing delay started. -/
theorem preview_empty_confirm_noop (s : FlowState)
    (h1 : s.status = Status.preview) (h2 : s.jsonData = []) :
    handleProcess s = s ∧ confirmDisabled s = true := by
  constructor
  · simp [handleProcess, h2]
  · simp [confirmDisabled, h2]

/-- Witness for C8 at a concrete preview state with no data. -/
theorem preview_empty_confirm_noop_witness :
    handleProcess { initialState with status := Status.preview }
        = { initialState with status := Status.preview } ∧
    confirmDisabled { initialState with status := Status.preview } = true :=
  preview_empty_confirm_noop { initialState with status := Status.preview } rfl rfl

/-- C10: submitting an absent file is a complete no-op: `handleFileSelect`
returns the state unchanged — same status, file, table, progress and log. -/
theorem absent_file_noop (s : FlowState) : handleFileSelect none s = s := rfl

/-- C4: whenever a step leaves the state owning a timer, that timer is no
longer outstanding afterwards — leaving `uploading` cancels the progress
interval (the effect cleanup) and no step leaves `processing` with the
processing timeout still pending; moreover, in any reachable state outside
the owning status (in particular the idle state any reset leads to), a fire
of either timer is a strict no-op, so no orphaned callback ever mutates the
state after a reset. -/
theorem timers_cancelled_on_leave (s : FlowState) (e : Event) (h : Reachable s) :
    (s.status = Status.uploading → (step e s).status ≠ Status.uploading →
      (step e s).uploadTimer = false) ∧
    (s.status = Status.processing → (step e s).status ≠ Status.processing →
      (step e s).processingTimer = false) ∧
    (s.status ≠ Status.uploading → step Event.tick s = s) ∧
    (s.status ≠ Status.processing → step Event.delayElapsed s = s) := by
  have hinv := reachable_inv h
  have hinv2 := inv_step e hinv
  obtain ⟨_, _, _, h4, _, h6⟩ := hinv
  obtain ⟨_, _, _, g4, _, g6⟩ := hinv2
  refine ⟨?_, ?_, ?_, ?_⟩
  · intro _ hns
    cases hut : (step e s).uploadTimer with
    | false => rfl
    | true => exact absurd (g6.mp hut) hns
  · intro _ hns
    cases hpt : (step e s).processingTimer with
    | false => rfl
    | true => exact absurd (g4 hpt).1 hns
  · intro hns
    have hut : s.uploadTimer = false := by
      cases hu : s.uploadTimer with
      | false => rfl
      | true => exact absurd (h6.mp hu) hns
    simp [step, hut]
  · intro hns
    have hpt : s.processingTimer = false := by
      cases hp : s.processingTimer with
      | false => rfl
      | true => exact absurd (h4 hp).1 hns
    simp [step, hpt]

/-- Witness for C4: at the initial state, a stray interval fire and a stray
timeout fire are both no-ops. -/
theorem timers_cancelled_on_leave_witness :
    step Event.tick initialState = initialState ∧
    step Event.delayElapsed initialState = initialState :=
  ⟨(timers_cancelled_on_leave initialState Event.tick Reachable.init).2.2.1 (by decide),
   (timers_cancelled_on_leave initialState Event.delayElapsed Reachable.init).2.2.2 (by decide)⟩

/-- Any step that lands in `uploading` from outside it is a file submission,
which sets the progress to 0. -/
theorem step_enter_uploading {s : FlowState} (e : Event)
    (hns : s.status ≠ Status.uploading) (hs : (step e s).status = Status.uploading) :
    (step e s).progress = 0 := by
  cases e with
  | fileSelect f =>
    simp only [step] at hs ⊢
    split at hs
    · rename_i hg
      rw [if_pos hg] at *
      match f with
      | none =>
        rw [applyEffect_status] at hs
        exact absurd (by simpa [handleFileSelect] using hs) hns
      | some f =>
        rw [applyEffect_progress]
        simp only [handleFileSelect] at hs ⊢
        split at hs
        · rename_i hacc
          rw [if_pos hacc]
        · rw [applyEffect_status] at hs
          simp at hs
    · exact absurd hs hns
  | readComplete =>
    cases hpr : s.pendingRead with
    | none =>
      have hx : step Event.readComplete s = s := by simp [step, hpr]
      rw [hx] at hs
      exact absurd hs hns
    | some f =>
      simp only [step, hpr] at hs
      rw [applyEffect_status] at hs
      simp only [readerOnload] at hs
      split at hs
      · simp at hs
      · split at hs
        · simp at hs
        · split at hs
          · simp at hs
          · exact absurd (by simpa using hs) hns
  | readFail =>
    cases hpr : s.pendingRead with
    | none =>
      have hx : step Event.readFail s = s := by simp [step, hpr]
      rw [hx] at hs
      exact absurd hs hns
    | some f =>
      simp only [step, hpr] at hs
      rw [applyEffect_status] at hs
      simp [readerOnerror] at hs
  | tick =>
    simp only [step] at hs ⊢
    split at hs
    · rw [applyEffect_status] at hs
      simp only [tickProgress] at hs
      split at hs
      · simp at hs
      · exact absurd (by simpa using hs) hns
    · exact absurd hs hns
  | confirm =>
    simp only [step] at hs ⊢
    split at hs
    · rw [applyEffect_status] at hs
      simp only [handleProcess] at hs
      split at hs
      · exact absurd hs hns
      · simp at hs
    · exact absurd hs hns
  | delayElapsed =>
    simp only [step] at hs ⊢
    split at hs
    · rw [applyEffect_status] at hs
      simp [processingFinished] at hs
    · exact absurd hs hns
  | reset =>
    simp only [step] at hs ⊢
    split at hs
    · rw [applyEffect_status] at hs
      simp [handleReset] at hs
    · exact absurd hs hns
  | dragEnter =>
    simp only [step] at hs ⊢
    split at hs
    · rw [applyEffect_status] at hs
      exact absurd (by simpa [handleDragEnter] using hs) hns
    · exact absurd hs hns
  | dragLeave =>
    simp only [step] at hs ⊢
    split at hs
    · rw [applyEffect_status] at hs
      exact absurd (by simpa [handleDragLeave] using hs) hns
    · exact absurd hs hns

/-- C5: in every reachable state the progress is at most 100; on entering
`uploading` it starts at 0; while in `uploading` no event decreases it,
every interval fire below 100 increments it by exactly the fixed step 10
and stays in `uploading`, and an interval fire moves to `preview` exactly
when the progress has reached 100. -/
theorem progress_monotone (s : FlowState) (e : Event) (h : Reachable s) :
    s.progress ≤ 100 ∧
    (s.status ≠ Status.uploading → (step e s).status = Status.uploading →
      (step e s).progress = 0) ∧
    (s.status = Status.uploading →
      s.progress ≤ (step e s).progress ∧
      (s.progress < 100 →
        (step Event.tick s).progress = s.progress + 10 ∧
        (step Event.tick s).status = Status.uploading) ∧
      ((step Event.tick s).status = Status.preview ↔ s.progress = 100)) := by
  have hinv := reachable_inv h
  obtain ⟨h1, h2, h3, h4, h5, h6⟩ := hinv
  refine ⟨h1, fun hns hs => step_enter_uploading e hns hs, ?_⟩
  intro hs
  have hut : s.uploadTimer = true := h6.mpr hs
  have hpt : s.processingTimer = false := by
    cases hp : s.processingTimer with
    | false => rfl
    | true =>
      have hx := (h4 hp).1
      rw [hs] at hx
      simp at hx
  have hgsel : (s.status == Status.idle || s.status == Status.error) = false := by
    rw [hs]; rfl
  have hgcon : (s.status == Status.preview) = false := by
    rw [hs]; rfl
  have hgres : (s.status == Status.completed || s.status == Status.error) = false := by
    rw [hs]; rfl
  refine ⟨?_, ?_, ?_⟩
  · cases e with
    | fileSelect f => simp [step, hgsel]
    | dragEnter => simp [step, hgsel]
    | dragLeave => simp [step, hgsel]
    | confirm => simp [step, hgcon]
    | reset => simp [step, hgres]
    | delayElapsed => simp [step, hpt]
    | readComplete =>
      cases hpr : s.pendingRead with
      | none => simp [step, hpr]
      | some f =>
        simp only [step, hpr]
        rw [applyEffect_progress]
        simp only [readerOnload]
        split
        · simp
        · split
          · simp
          · split <;> simp
    | readFail =>
      cases hpr : s.pendingRead with
      | none => simp [step, hpr]
      | some f =>
        simp only [step, hpr]
        rw [applyEffect_progress]
        simp [readerOnerror]
    | tick =>
      simp only [step, hut, if_true]
      rw [applyEffect_progress]
      simp only [tickProgress]
      split
      · exact h1
      · exact Nat.le_add_right s.progress 10
  · intro hlt
    have hnge : ¬ (s.progress ≥ 100) := by omega
    constructor
    · simp only [step, hut, if_true]
      rw [applyEffect_progress]
      simp only [tickProgress]
      rw [if_neg hnge]
    · simp only [step, hut, if_true]
      rw [applyEffect_status]
      simp only [tickProgress]
      rw [if_neg hnge]
      exact hs
  · constructor
    · intro hp
      by_contra hne
      have hlt : s.progress < 100 := by omega
      have hnge : ¬ (s.progress ≥ 100) := by omega
      rw [show step Event.tick s = applyEffect ({ s with progress := s.progress + 10 }) by
            simp only [step, hut, if_true, tickProgress]
            rw [if_neg hnge]] at hp
      rw [applyEffect_status] at hp
      rw [hs] at hp
      simp at hp
    · intro hp100
      have hge : s.progress ≥ 100 := by omega
      simp only [step, hut, if_true]
      rw [applyEffect_status]
      simp only [tickProgress]
      rw [if_pos hge]
      rfl

/-- Witness for C5: one reachable uploading state, entered at progress 0,
whose first interval fire moves the progress to exactly 10. -/
theorem progress_monotone_witness :
    (step (Event.fileSelect (some csvFile)) initialState).progress = 0 ∧
    (step Event.tick (step (Event.fileSelect (some csvFile)) initialState)).progress = 10 ∧
    (step Event.tick (step (Event.fileSelect (some csvFile)) initialState)).status
      = Status.uploading := by
  have h := progress_monotone (step (Event.fileSelect (some csvFile)) initialState)
    Event.tick (Reachable.next (Event.fileSelect (some csvFile)) Reachable.init)
  have h0 : (step (Event.fileSelect (some csvFile)) initialState).progress = 0 := by decide
  have hup : (step (Event.fileSelect (some csvFile)) initialState).status
      = Status.uploading := by decide
  have hx := (h.2.2 hup).2.1 (by rw [h0]; decide)
  exact ⟨h0, by rw [hx.1, h0], hx.2⟩

/-- C9 counterexample: the machine is in `error` after an invalid
submission, and submitting a new valid file from there moves it directly to
`uploading` — out of `error` with no reset. -/
theorem error_exit_only_reset_cex :
    (step (Event.fileSelect (some badFile)) initialState).status = Status.error ∧
    (step (Event.fileSelect (some csvFile))
        (step (Event.fileSelect (some badFile)) initialState)).status
      = Status.uploading := by
  refine ⟨?_, ?_⟩ <;> decide

/-- C9 amended: from a reachable `error` state, every event either stays in
`error`, is the explicit full reset back to `idle`, or is the submission of
a new file that passes validation, which restarts the whole pipeline at
`uploading`; no failed step is partially retried. -/
theorem error_exit_transitions (s : FlowState) (e : Event) (h : Reachable s)
    (hs : s.status = Status.error) :
    (step e s).status = Status.error ∨
    (e = Event.reset ∧ (step e s).status = Status.idle) ∨
    (∃ f, e = Event.fileSelect (some f) ∧ isAccepted f = true ∧
      (step e s).status = Status.uploading) := by
  have hinv := reachable_inv h
  obtain ⟨h1, h2, h3, h4, h5, h6⟩ := hinv
  have hut : s.uploadTimer = false := by
    cases hu : s.uploadTimer with
    | false => rfl
    | true => have hx := h6.mp hu; rw [hs] at hx; simp at hx
  have hpt : s.processingTimer = false := by
    cases hp : s.processingTimer with
    | false => rfl
    | true => have hx := (h4 hp).1; rw [hs] at hx; simp at hx
  have hgsel : (s.status == Status.idle || s.status == Status.error) = true := by
    rw [hs]; rfl
  have hgcon : (s.status == Status.preview) = false := by
    rw [hs]; rfl
  have hgres : (s.status == Status.completed || s.status == Status.error) = true := by
    rw [hs]; rfl
  cases e with
  | fileSelect f =>
    match f with
    | none =>
      left
      simp only [step, hgsel, if_true]
      rw [applyEffect_status]
      simpa [handleFileSelect] using hs
    | some f =>
      cases hacc : isAccepted f with
      | true =>
        right; right
        refine ⟨f, rfl, hacc, ?_⟩
        simp only [step, hgsel, if_true]
        rw [applyEffect_status]
        simp [handleFileSelect, hacc]
      | false =>
        left
        simp only [step, hgsel, if_true]
        rw [applyEffect_status]
        simp [handleFileSelect, hacc]
  | readComplete =>
    left
    cases hpr : s.pendingRead with
    | none => simpa [step, hpr] using hs
    | some f =>
      simp only [step, hpr]
      rw [applyEffect_status]
      simp only [readerOnload]
      split
      · simp
      · split
        · simp
        · split
          · simp
          · simpa using hs
  | readFail =>
    left
    cases hpr : s.pendingRead with
    | none => simpa [step, hpr] using hs
    | some f =>
      simp only [step, hpr]
      rw [applyEffect_status]
      simp [readerOnerror]
  | tick =>
    left
    simpa [step, hut] using hs
  | confirm =>
    left
    simpa [step, hgcon] using hs
  | delayElapsed =>
    left
    simpa [step, hpt] using hs
  | reset =>
    right; left
    refine ⟨rfl, ?_⟩
    simp only [step, hgres, if_true]
    rw [applyEffect_status]
    simp [handleReset]
  | dragEnter =>
    left
    simp only [step, hgsel, if_true]
    rw [applyEffect_status]
    simpa [handleDragEnter] using hs
  | dragLeave =>
    left
    simp only [step, hgsel, if_true]
    rw [applyEffect_status]
    simpa [handleDragLeave] using hs

/-- Witness for C9 amended: applied at a concrete reachable error state
with the reset event. -/
theorem error_exit_transitions_witness :
    (step Event.reset (step (Event.fileSelect (some badFile)) initialState)).status
        = Status.error ∨
    (Event.reset = Event.reset ∧
      (step Event.reset (step (Event.fileSelect (some badFile)) initialState)).status
        = Status.idle) ∨
    (∃ f, Event.reset = Event.fileSelect (some f) ∧ isAccepted f = true ∧
      (step Event.reset (step (Event.fileSelect (some badFile)) initialState)).status
        = Status.uploading) :=
  error_exit_transitions (step (Event.fileSelect (some badFile)) initialState)
    Event.reset (Reachable.next (Event.fileSelect (some badFile)) Reachable.init)
    (by decide)

end ExcelFlow
